import Mathlib

/-!
Shallow embedding of `backend/app.py` (educredai).

The file models the pure request-processing logic of the Flask backend:
the heuristic scorer (`quick_trust_score`), issuer detection
(`detect_issuer_in_text`), date detection, snippet truncation, the
page-joining performed by `api_verify`, the static-file route
(`serve_frontend_file`) and the `api_verify` handler itself.

External libraries (EasyOCR, pdf2image, PIL, hashlib, the filesystem) are
modelled as parameters of an `Env` record: each request sees fixed outcomes
for the PDF conversion, image decoding and per-page OCR calls, exactly the
information the Python control flow branches on.  Bytes are `List Nat`,
Python `str` is Lean `String` (both sequences of code points), Python ints
arising from `len(...)` are `Nat`, floats (OCR confidences) are `ℚ`.
-/

/-- `startsWithL hay pat` : does `hay` start with `pat`?  (List-level model of
prefix testing used by Python's `str.startswith` and substring scanning.) -/
def startsWithL : List Char → List Char → Bool
  | _, [] => true
  | [], _ :: _ => false
  | a :: as, b :: bs => (a == b) && startsWithL as bs

/-- `hasSubL hay pat` : model of Python's `pat in hay` substring test. -/
def hasSubL : List Char → List Char → Bool
  | [], pat => startsWithL [] pat
  | h :: t, pat => startsWithL (h :: t) pat || hasSubL t pat

/-- Number of (possibly overlapping) start positions of `pat` in `hay`. -/
def countSubAux : List Char → List Char → Nat
  | [], _ => 0
  | h :: t, pat => countSubAux t pat + cond (startsWithL (h :: t) pat) 1 0

/-- Model of Python `kw in t` for strings. -/
def strContains (t pat : String) : Bool := hasSubL t.toList pat.toList

/-- Occurrence count of `pat` in `s` (start positions). -/
def countOccStr (pat s : String) : Nat := countSubAux s.toList pat.toList

/-- Model of Python `s.startswith(pre)`. -/
def strStartsWith (s pre : String) : Bool := startsWithL s.toList pre.toList

/-- Model of Python `s.endswith(suf)`. -/
def strEndsWith (s suf : String) : Bool :=
  startsWithL s.toList.reverse suf.toList.reverse

/-- Model of Python `s.lower()` (ASCII letters; the issuer keywords and the
date phrases are plain ASCII). -/
def lowerStr (s : String) : String := String.mk (s.toList.map Char.toLower)

/-- Strip leading and trailing whitespace: model of Python `s.strip()`. -/
def pyStripL (l : List Char) : List Char :=
  let l1 := l.dropWhile Char.isWhitespace
  (l1.reverse.dropWhile Char.isWhitespace).reverse

/-- Model of Python `s.strip()`. -/
def pyStrip (s : String) : String := String.mk (pyStripL s.toList)

/-- Split at every whitespace character, keeping empty pieces
(auxiliary for the model of Python `s.split()`). -/
def splitWsAux : List Char → List Char → List String
  | [], acc => [String.mk acc.reverse]
  | c :: t, acc =>
    if c.isWhitespace then String.mk acc.reverse :: splitWsAux t []
    else splitWsAux t (c :: acc)

/-- Model of Python `s.split()` (whitespace-delimited tokens, empties
dropped); `app.py` additionally filters `if w.strip()`, which on the output
of `split()` is the same as dropping empty tokens. -/
def pyWords (s : String) : List String :=
  (splitWsAux s.toList []).filter (fun w => !(w == ""))

/-- Decimal value of an all-digit token: model of Python `int(tok)`. -/
def strToNat (s : String) : Nat :=
  s.toList.foldl (fun a c => a * 10 + (c.toNat - 48)) 0

/-- Code-point lexicographic comparison on char lists: the order Python's
`sorted` uses on `str`. -/
def listLeB : List Char → List Char → Bool
  | [], _ => true
  | _ :: _, [] => false
  | a :: as, b :: bs =>
    if a < b then true else if a = b then listLeB as bs else false

/-- Python's `str` ordering (code-point lexicographic), as a proposition. -/
def pyLe (a b : String) : Prop := listLeB a.toList b.toList = true

instance : DecidableRel pyLe := fun a b => by unfold pyLe; infer_instance

/-- `KNOWN_ISSUERS` from `app.py`, verbatim. -/
def KNOWN_ISSUERS : List String :=
  ["institute", "university", "college", "certified", "certificate", "issued",
   "degree", "coursera", "edx", "udemy", "iit", "mit", "stanford", "google",
   "microsoft"]

/-- `detect_issuer_in_text` from `app.py`: lower-case the text, collect the
keywords occurring as substrings, return them sorted.  (The Python builds a
`set` and then `sorted(...)`; since `KNOWN_ISSUERS` has no duplicates this
equals sorting the filtered keyword list.) -/
def detect_issuer_in_text (text : String) : List String :=
  let t := lowerStr text
  List.insertionSort pyLe (KNOWN_ISSUERS.filter (fun kw => strContains t kw))

/-- `quick_trust_score` from `app.py`.  `word_count` and `issuer_count` are
lengths of Python lists at the call site, hence `Nat`. -/
def quick_trust_score (word_count issuer_count : Nat) (has_dates : Bool) : Nat :=
  let score := 30
  let score := if word_count > 50 then score + 30 else score
  let score := score + min 30 (issuer_count * 10)
  let score := if has_dates then score + 10 else score
  max 0 (min 100 score)

/-- The date-indicator phrases of `app.py` line 195. -/
def DATE_PHRASES : List String := ["issued on", "date of", "on:"]

/-- One token's test in the date heuristic:
`tok.isdigit() and (len(tok) == 4 and 1900 <= int(tok) <= 2100)`. -/
def isYearTok (tok : String) : Bool :=
  tok.toList.all Char.isDigit && tok.length == 4 &&
    (1900 ≤ strToNat tok && strToNat tok ≤ 2100)

/-- The `has_dates` computation of `app.py` line 195. -/
def hasDates (full_text : String) : Bool :=
  (pyWords full_text).any isYearTok ||
    DATE_PHRASES.any (fun k => strContains (lowerStr full_text) k)

/-- The page separator used by `api_verify`. -/
def SEP : String := "\n\n---PAGE---\n\n"

/-- The distinctive (whitespace-free) core of the page separator. -/
def MARKER : String := "---PAGE---"

/-- `sep.join(texts)` specialised to list-of-chars texts. -/
def joinSepL (sep : List Char) : List (List Char) → List Char
  | [] => []
  | [t] => t
  | t :: t2 :: ts => t ++ (sep ++ joinSepL sep (t2 :: ts))

/-- `"\n\n---PAGE---\n\n".join(texts).strip()` from `app.py` line 190. -/
def joinPages (texts : List String) : String :=
  String.mk (pyStripL (joinSepL SEP.toList (texts.map String.toList)))

/-- Snippet truncation of `app.py` line 191:
`(full_text[:1000] + "...") if len(full_text) > 1000 else full_text`. -/
def mkSnippet (full_text : String) : String :=
  if full_text.length > 1000 then
    String.mk (full_text.toList.take 1000 ++ ("...").toList)
  else full_text

/-- Split a char list at every `'/'`, keeping empty pieces: model of
Python `s.split("/")` as used by `os.path.normpath`. -/
def splitSlashAux : List Char → List Char → List (List Char)
  | [], acc => [acc.reverse]
  | c :: t, acc =>
    if c = '/' then acc.reverse :: splitSlashAux t [] else splitSlashAux t (c :: acc)

/-- Model of Python `os.path.normpath` on absolute POSIX paths (the only
inputs it receives in `app.py`: `FRONTEND_DIR` is built with `abspath`):
drop empty and `"."` components, resolve `".."` against the stack, and
re-join under the leading `/`. -/
def normpathAbs (s : String) : String :=
  let comps := (splitSlashAux s.toList []).filter
    (fun c => !(c.isEmpty || c == ['.']))
  let resolved := comps.foldl
    (fun acc c => if c = ['.', '.'] then acc.dropLast else acc ++ [c])
    ([] : List (List Char))
  String.mk ('/' :: List.intercalate ['/'] resolved)

/-- Model of `os.path.join(d, f)` for the shapes appearing in `app.py`
(`d` absolute without trailing slash). -/
def pyJoin (d f : String) : String :=
  if strStartsWith f "/" then f else d ++ "/" ++ f

/-- Outcome of the `GET /<path>` route. -/
inductive ServeResp where
  | file (path : String)
  | forbidden
  | notFound
deriving DecidableEq

/-- `serve_frontend_file` from `app.py` lines 122–130: normalize
`join(FRONTEND_DIR, filename)`, reject with 403 when the result does not
start with `abspath(FRONTEND_DIR)` (modelled by `normpathAbs`, since
`FRONTEND_DIR` is already absolute), else serve the file or 404.
`fsOk` answers `os.path.exists`. -/
def serve_frontend_file (frontendDir : String) (fsOk : String → Bool)
    (filename : String) : ServeResp :=
  let safe_path := normpathAbs (pyJoin frontendDir filename)
  if !(strStartsWith safe_path (normpathAbs frontendDir)) then .forbidden
  else if fsOk safe_path then .file safe_path
  else .notFound

/-- `p` lies inside the directory `root`: it is `root` itself or has
`root ++ "/"` as a prefix. -/
def underRoot (root p : String) : Bool :=
  (p == root) || strStartsWith p (root ++ "/")

/-- A per-page OCR outcome: the Python `ocr_easyocr_pil` call either raises
(`Except.error`) or returns recognized text and an optional mean
confidence. -/
def PageOcr : Type := Except String (String × Option ℚ)

/-- Outcomes of the external library calls as seen by one request. -/
structure Env where
  pdf2imageOk : Bool
  pdfConvert : Except String (List PageOcr)
  imageDecode : Except String Unit
  imageOcr : PageOcr
  hashHex : List Nat → String

/-- The uploaded file part: `request.files["file"]`. -/
structure FilePart where
  filename : Option String
  content : List Nat

/-- A request: `request.files` either lacks or carries the `file` part. -/
structure Request where
  files : Option FilePart

/-- The JSON success body assembled by `api_verify`. -/
structure VerificationResult where
  file_name : String
  file_hash : String
  page_count : Nat
  full_text : String
  extracted_text_snippet : String
  word_count : Nat
  detected_issuers : List String
  has_dates : Bool
  avg_ocr_confidence : Option ℚ
  trust_score : Nat
deriving DecidableEq

/-- A response: success body or an error code with HTTP status. -/
inductive Resp where
  | ok (r : VerificationResult)
  | err (code : String) (status : Nat)
deriving DecidableEq

/-- `f.filename or "upload"` (only `None` and `""` are falsy here). -/
def effName (f : FilePart) : String :=
  match f.filename with
  | none => "upload"
  | some s => if s == "" then "upload" else s

/-- `filename.lower().endswith(".pdf") or raw[:4] == b"%PDF"`
(`%PDF` = bytes 37 80 68 70). -/
def isPdfUpload (filename : String) (raw : List Nat) : Bool :=
  strEndsWith (lowerStr filename) ".pdf" || raw.take 4 == [37, 80, 68, 70]

/-- Texts accumulated by the PDF loop: recognized text on success, `""` on a
caught per-page failure. -/
def pageTexts (pages : List PageOcr) : List String :=
  pages.map (fun p => match p with | .ok (t, _) => t | .error _ => "")

/-- Confidences accumulated by the PDF loop: only successful pages with a
non-`None` confidence contribute. -/
def pageConfs (pages : List PageOcr) : List ℚ :=
  pages.filterMap (fun p => match p with | .ok (_, c) => c | .error _ => none)

/-- Lines 190–210 of `app.py`: join pages, truncate, count words, detect
issuers and dates, average confidences, score, and assemble the body. -/
def mkResult (filename file_hash : String) (texts : List String)
    (confs : List ℚ) (page_count : Nat) : VerificationResult :=
  let full_text := joinPages texts
  let snippet := mkSnippet full_text
  let words := pyWords full_text
  let word_count := words.length
  let issuers := detect_issuer_in_text full_text
  let hd := hasDates full_text
  let avg := if confs.isEmpty then none
             else some (confs.sum / (confs.length : ℚ))
  { file_name := filename
    file_hash := file_hash
    page_count := page_count
    full_text := full_text
    extracted_text_snippet := snippet
    word_count := word_count
    detected_issuers := issuers
    has_dates := hd
    avg_ocr_confidence := avg
    trust_score := quick_trust_score word_count issuers.length hd }

/-- The `POST /api/verify` handler of `app.py` (lines 133–214), with the
external calls answered by `env`.  Control flow is translated branch by
branch; per-page OCR failures in the PDF loop fall into the
`except ... texts.append("")` arm, while the image path returns
`("ocr_failed", 500)` on OCR failure. -/
def api_verify (env : Env) (req : Request) : Resp :=
  match req.files with
  | none => .err "no file part named 'file' in request" 400
  | some f =>
    let filename := effName f
    let raw := f.content
    let file_hash := env.hashHex raw
    if isPdfUpload filename raw then
      if !env.pdf2imageOk then
        .err "pdf_uploaded_but_pdf2image_missing" 400
      else
        match env.pdfConvert with
        | .error _ => .err "pdf_conversion_failed" 500
        | .ok pages =>
          .ok (mkResult filename file_hash (pageTexts pages) (pageConfs pages)
                pages.length)
    else
      match env.imageDecode with
      | .error _ => .err "cannot_read_image" 400
      | .ok _ =>
        match env.imageOcr with
        | .error _ => .err "ocr_failed" 500
        | .ok (txt, conf) =>
          .ok (mkResult filename file_hash [txt] conf.toList 1)

/-! ## Theorems -/

/-- C1: the trust score is 30 (base), plus 30 if the word count exceeds 50,
plus `min 30 (10*k)` for `k` issuer keywords, plus 10 if dates were
detected, clamped to `[0, 100]`; it is always within `[0, 100]`, and for
word count ≥ 51, no issuers and no dates it is exactly 60. -/
theorem trust_score_spec_c1 (w k : Nat) (d : Bool) :
    quick_trust_score w k d =
      max 0 (min 100 (30 + (if 50 < w then 30 else 0) + min 30 (10 * k) +
        (if d then 10 else 0))) ∧
    quick_trust_score w k d ≤ 100 ∧
    (51 ≤ w → quick_trust_score w 0 false = 60) := by
  unfold quick_trust_score
  refine ⟨?_, ?_, fun h => ?_⟩ <;>
    simp only [Nat.min_def, Nat.max_def, Nat.mul_comm] <;>
    split_ifs <;> (try simp_all) <;> omega

theorem trust_score_spec_c1_witness :
    51 ≤ 51 ∧ quick_trust_score 51 0 false = 60 :=
  ⟨by decide, (trust_score_spec_c1 51 0 false).2.2 (by decide)⟩

/-- C9: the base of 30 is only ever added to, so `quick_trust_score` is at
least 30, at most 100, and the lower clamp `max 0` is never active: the
score equals the raw sum merely capped at 100. -/
theorem trust_score_lower_bound_c9 (w k : Nat) (d : Bool) :
    30 ≤ quick_trust_score w k d ∧ quick_trust_score w k d ≤ 100 ∧
    quick_trust_score w k d =
      min 100 ((if 50 < w then 30 + 30 else 30) + min 30 (k * 10) +
        (if d then 10 else 0)) := by
  unfold quick_trust_score
  refine ⟨?_, ?_, ?_⟩ <;>
    simp only [Nat.min_def, Nat.max_def] <;>
    split_ifs <;> (try simp_all) <;> omega

/-- C8: a request whose multipart body lacks the `file` field gets the
400 error naming the missing field, for every environment — in particular
no hashing, page extraction, OCR or scoring outcome can influence the
response. -/
theorem missing_file_field_c8 (env : Env) :
    api_verify env { files := none } =
      .err "no file part named 'file' in request" 400 := rfl

/-- C3: the containment check of `serve_frontend_file` is a plain string
prefix test, so a filename that resolves to a sibling directory whose name
extends the root's name escapes the root yet is served rather than
rejected with 403: with root `/app/frontend`, the request
`../frontendX/secret.txt` resolves to `/app/frontendX/secret.txt`, which
is outside the root but is answered with the file. -/
theorem path_prefix_escape_c3 :
    serve_frontend_file "/app/frontend" (fun _ => true) "../frontendX/secret.txt" =
      ServeResp.file "/app/frontendX/secret.txt" ∧
    underRoot "/app/frontend" "/app/frontendX/secret.txt" = false := by decide

/-- C5: `has_dates` is true iff some whitespace-delimited token is all
digits, 4 characters long and parses into `[1900, 2100]`, or the
lower-cased text contains one of `"issued on"`, `"date of"`, `"on:"`;
concretely `"1999"` triggers it, `"2150"` alone does not, and
`"issued on"` triggers it without any numeric token. -/
theorem has_dates_spec_c5 (t : String) :
    (hasDates t = true ↔
      (∃ tok ∈ pyWords t, tok.toList.all Char.isDigit = true ∧
        tok.length = 4 ∧ 1900 ≤ strToNat tok ∧ strToNat tok ≤ 2100) ∨
      (∃ p ∈ DATE_PHRASES, strContains (lowerStr t) p = true)) ∧
    hasDates "1999" = true ∧ hasDates "2150" = false ∧
    hasDates "issued on" = true := by
  refine ⟨?_, by decide, by decide, by decide⟩
  unfold hasDates isYearTok
  simp [List.any_eq_true, Bool.and_eq_true, decide_eq_true_eq,
    Nat.beq_eq_true_eq, and_assoc]

/-- C6: the snippet is `full_text` verbatim when its length is at most
1000 characters, is the first 1000 characters followed by `"..."` when it
is longer, and in all cases has length at most 1003. -/
theorem snippet_spec_c6 (s : String) :
    (mkSnippet s).length ≤ 1003 ∧
    (s.length ≤ 1000 → mkSnippet s = s) ∧
    (1000 < s.length →
      (mkSnippet s).toList = s.toList.take 1000 ++ "...".toList) := by
  unfold mkSnippet
  by_cases h : s.length > 1000
  · rw [if_pos h]
    have hlen : s.toList.length = s.length := rfl
    refine ⟨?_, fun h2 => by omega, fun _ => rfl⟩
    show (s.toList.take 1000 ++ "...".toList).length ≤ 1003
    rw [List.length_append, List.length_take]
    simp
  · rw [if_neg h]
    exact ⟨by omega, fun _ => rfl, fun h2 => by omega⟩

theorem snippet_spec_c6_witness :
    mkSnippet "hi" = "hi" ∧
    (mkSnippet (String.mk (List.replicate 1001 'a'))).toList =
      (String.mk (List.replicate 1001 'a')).toList.take 1000 ++ "...".toList :=
  ⟨(snippet_spec_c6 "hi").2.1 (by decide),
   (snippet_spec_c6 _).2.2
     (by show (1000 : Nat) < (List.replicate 1001 'a').length
         rw [List.length_replicate]; omega)⟩

/-! ### The Python string order is total and transitive -/

theorem listLeB_total (a b : List Char) :
    listLeB a b = true ∨ listLeB b a = true := by
  induction a generalizing b with
  | nil => exact Or.inl rfl
  | cons x xs ih =>
    cases b with
    | nil => exact Or.inr rfl
    | cons y ys =>
      rcases lt_trichotomy x y with h | h | h
      · left; simp [listLeB, h]
      · subst h
        rcases ih ys with h2 | h2
        · left; simp [listLeB, h2]
        · right; simp [listLeB, h2]
      · right; simp [listLeB, h]

theorem listLeB_trans (a b c : List Char) (hab : listLeB a b = true)
    (hbc : listLeB b c = true) : listLeB a c = true := by
  induction a generalizing b c with
  | nil => rfl
  | cons x xs ih =>
    cases b with
    | nil => simp [listLeB] at hab
    | cons y ys =>
      cases c with
      | nil => simp [listLeB] at hbc
      | cons z zs =>
        by_cases hxy : x < y
        · by_cases hyz : y < z
          · simp [listLeB, lt_trans hxy hyz]
          · simp only [listLeB, if_neg hyz] at hbc
            by_cases hyz2 : y = z
            · subst hyz2; simp [listLeB, hxy]
            · simp [hyz2] at hbc
        · simp only [listLeB, if_neg hxy] at hab
          by_cases hxy2 : x = y
          · subst hxy2
            simp only [if_pos rfl] at hab
            by_cases hxz : x < z
            · simp [listLeB, hxz]
            · simp only [listLeB, if_neg hxz] at hbc ⊢
              by_cases hxz2 : x = z
              · simp only [if_pos hxz2] at hbc ⊢
                exact ih ys zs hab hbc
              · simp [hxz2] at hbc
          · simp [hxy2] at hab

instance : IsTotal String pyLe :=
  ⟨fun a b => listLeB_total a.toList b.toList⟩

instance : IsTrans String pyLe :=
  ⟨fun a b c => listLeB_trans a.toList b.toList c.toList⟩

/-- C7: `detect_issuer_in_text` returns a sorted (code-point
lexicographically, the order of Python's `sorted` on `str`),
duplicate-free list containing exactly the hard-coded keywords that occur
as substrings of the lower-cased text. -/
theorem issuers_spec_c7 (t : String) :
    (detect_issuer_in_text t).Sorted pyLe ∧
    (detect_issuer_in_text t).Nodup ∧
    (∀ kw, kw ∈ detect_issuer_in_text t ↔
      kw ∈ KNOWN_ISSUERS ∧ strContains (lowerStr t) kw = true) := by
  unfold detect_issuer_in_text
  refine ⟨List.sorted_insertionSort pyLe _, ?_, fun kw => ?_⟩
  · exact (List.perm_insertionSort pyLe _).nodup_iff.mpr
      (List.Nodup.filter _ (by decide))
  · rw [(List.perm_insertionSort pyLe _).mem_iff, List.mem_filter]

/-- C10: when the uploaded file's declared filename is missing or empty,
every successful response reports `file_name = "upload"`. -/
theorem default_filename_upload_c10 (env : Env) (f : FilePart)
    (r : VerificationResult)
    (hname : f.filename = none ∨ f.filename = some "")
    (hok : api_verify env { files := some f } = .ok r) :
    r.file_name = "upload" := by
  have heff : effName f = "upload" := by
    rcases hname with h | h <;> simp [effName, h]
  unfold api_verify at hok
  simp only [] at hok
  split at hok
  · split at hok
    · cases hok
    · split at hok
      · cases hok
      · cases hok
        rw [heff]
        rfl
  · split at hok
    · cases hok
    · split at hok
      · cases hok
      · cases hok
        rw [heff]
        rfl

def envC10w : Env :=
  { pdf2imageOk := false, pdfConvert := .error "no poppler",
    imageDecode := .ok (), imageOcr := .ok ("hello world", none),
    hashHex := fun _ => "h" }

def fC10w : FilePart := { filename := some "", content := [1, 2, 3] }

def resC10w : VerificationResult := mkResult "upload" "h" ["hello world"] [] 1

theorem default_filename_upload_c10_witness :
    api_verify envC10w { files := some fC10w } = .ok resC10w ∧
    resC10w.file_name = "upload" :=
  ⟨by decide,
   default_filename_upload_c10 envC10w fC10w resC10w (Or.inr rfl) (by decide)⟩

def envC2x : Env :=
  { pdf2imageOk := false, pdfConvert := .error "unused",
    imageDecode := .ok (), imageOcr := .error "easyocr raised",
    hashHex := fun _ => "h" }

def reqC2x : Request := { files := some { filename := some "scan.png", content := [1, 2] } }

/-- C2 counterexample: an image request whose page extraction (image
decoding) succeeds but whose OCR call fails is answered with the error
`ocr_failed` (500), not with a successful result carrying empty text — so
a per-page recognition failure IS surfaced to the caller for image
uploads. -/
theorem image_ocr_failure_errors_c2 :
    api_verify envC2x reqC2x = .err "ocr_failed" 500 := by decide

/-- C2 (amended): for PDF requests, a page whose recognition fails after
page extraction succeeded contributes the empty string and the request
still returns a successful `VerificationResult`; only the image path turns
a recognition failure into an error response. -/
theorem pdf_page_failure_degrades_c2 (env : Env) (f : FilePart)
    (pages : List PageOcr) (i : Nat) (e : String)
    (hpdf : isPdfUpload (effName f) f.content = true)
    (hlib : env.pdf2imageOk = true)
    (hconv : env.pdfConvert = .ok pages)
    (hfail : pages[i]? = some (.error e)) :
    api_verify env { files := some f } =
      .ok (mkResult (effName f) (env.hashHex f.content) (pageTexts pages)
        (pageConfs pages) pages.length) ∧
    (pageTexts pages)[i]? = some "" := by
  constructor
  · simp [api_verify, hpdf, hlib, hconv]
  · unfold pageTexts
    rw [List.getElem?_map, hfail]
    rfl

def pagesC2w : List PageOcr := [.ok ("good page", none), .error "bad page"]

def envC2w : Env :=
  { pdf2imageOk := true, pdfConvert := .ok pagesC2w,
    imageDecode := .ok (), imageOcr := .error "unused",
    hashHex := fun _ => "h" }

def fC2w : FilePart := { filename := some "doc.pdf", content := [] }

theorem pdf_page_failure_degrades_c2_witness :
    api_verify envC2w { files := some fC2w } =
      .ok (mkResult (effName fC2w) (envC2w.hashHex fC2w.content)
        (pageTexts pagesC2w) (pageConfs pagesC2w) pagesC2w.length) ∧
    (pageTexts pagesC2w)[1]? = some "" :=
  pdf_page_failure_degrades_c2 envC2w fC2w pagesC2w 1 "bad page"
    (by decide) rfl rfl rfl

/-! ### Counting page-separator markers -/

theorem swl_mono_of_long (pat : List Char) :
    ∀ (a b : List Char), pat.length ≤ a.length →
      startsWithL (a ++ b) pat = startsWithL a pat := by
  induction pat with
  | nil => intro a b _; cases a <;> cases b <;> rfl
  | cons p ps ih =>
    intro a b h
    cases a with
    | nil => simp at h
    | cons x xs =>
      simp only [List.cons_append, startsWithL, List.append_eq]
      rw [ih xs b (by simpa using h)]

theorem swl_mem_of_short (pat : List Char) :
    ∀ (a : List Char) (c : Char) (b : List Char), a.length < pat.length →
      startsWithL (a ++ c :: b) pat = true → c ∈ pat := by
  induction pat with
  | nil => intro a c b h _; simp at h
  | cons p ps ih =>
    intro a c b hlen hsw
    cases a with
    | nil =>
      simp only [List.nil_append, startsWithL, Bool.and_eq_true,
        beq_iff_eq] at hsw
      exact hsw.1 ▸ List.mem_cons_self _ _
    | cons x xs =>
      simp only [List.cons_append, startsWithL, Bool.and_eq_true] at hsw
      exact List.mem_cons_of_mem _ (ih xs c b (by simpa using hlen) hsw.2)

theorem count_zero_swl (p : Char) (ps : List Char) :
    ∀ (t : List Char), countSubAux t (p :: ps) = 0 →
      ∀ i, startsWithL (List.drop i t) (p :: ps) = false := by
  intro t
  induction t with
  | nil => intro _ i; rw [List.drop_nil]; rfl
  | cons x xs ih =>
    intro h i
    have hx : countSubAux xs (p :: ps) = 0 ∧
        cond (startsWithL (x :: xs) (p :: ps)) 1 0 = 0 := by
      have : countSubAux (x :: xs) (p :: ps) =
          countSubAux xs (p :: ps) +
            cond (startsWithL (x :: xs) (p :: ps)) 1 0 := rfl
      omega
    cases i with
    | zero =>
      rw [List.drop_zero]
      cases hsw : startsWithL (x :: xs) (p :: ps)
      · rfl
      · rw [hsw] at hx; simp at hx
    | succ n =>
      rw [List.drop_succ_cons]
      exact ih hx.1 n

theorem countSubAux_append_zero :
    ∀ (a b pat : List Char),
      (∀ i, i < a.length → startsWithL (List.drop i a ++ b) pat = false) →
      countSubAux (a ++ b) pat = countSubAux b pat := by
  intro a
  induction a with
  | nil => intro b pat _; rfl
  | cons x xs ih =>
    intro b pat h
    have h0 := h 0 (Nat.succ_pos _)
    simp only [List.drop_zero] at h0
    calc countSubAux ((x :: xs) ++ b) pat
        = countSubAux (xs ++ b) pat +
            cond (startsWithL ((x :: xs) ++ b) pat) 1 0 := rfl
      _ = countSubAux (xs ++ b) pat := by rw [h0]; rfl
      _ = countSubAux b pat := ih b pat (fun i hi => by
            have := h (i + 1) (by simpa using Nat.succ_lt_succ hi)
            simpa [List.drop_succ_cons] using this)

theorem count_append_nl (p : Char) (ps t r : List Char)
    (hnl : '\n' ∉ p :: ps) (hz : countSubAux t (p :: ps) = 0) :
    countSubAux (t ++ '\n' :: r) (p :: ps) =
      countSubAux ('\n' :: r) (p :: ps) := by
  apply countSubAux_append_zero
  intro i _
  rcases le_or_lt (p :: ps).length (List.drop i t).length with hle | hlt
  · rw [swl_mono_of_long _ _ _ hle]
    exact count_zero_swl p ps t hz i
  · cases hsw : startsWithL (List.drop i t ++ '\n' :: r) (p :: ps)
    · rfl
    · exact absurd (swl_mem_of_short (p :: ps) (List.drop i t) '\n' r hlt hsw) hnl

theorem count_sep_cons (r : List Char) :
    countSubAux (SEP.toList ++ r) MARKER.toList =
      countSubAux r MARKER.toList + 1 := rfl

theorem count_join (ts : List (List Char)) :
    (∀ t ∈ ts, countSubAux t MARKER.toList = 0) →
    countSubAux (joinSepL SEP.toList ts) MARKER.toList = ts.length - 1 := by
  induction ts with
  | nil => intro _; rfl
  | cons t rest ih =>
    cases rest with
    | nil => intro h; exact h t (by simp)
    | cons t2 ts2 =>
      intro h
      have hz := h t (by simp)
      have h1 : countSubAux
            (t ++ (SEP.toList ++ joinSepL SEP.toList (t2 :: ts2)))
            MARKER.toList =
          countSubAux (SEP.toList ++ joinSepL SEP.toList (t2 :: ts2))
            MARKER.toList :=
        count_append_nl '-' ['-', '-', 'P', 'A', 'G', 'E', '-', '-', '-'] t
          ('\n' :: '-' :: '-' :: '-' :: 'P' :: 'A' :: 'G' :: 'E' :: '-' ::
            '-' :: '-' :: '\n' :: '\n' :: joinSepL SEP.toList (t2 :: ts2))
          (by decide) hz
      have h2 := count_sep_cons (joinSepL SEP.toList (t2 :: ts2))
      have h3 := ih (fun u hu => h u (by simp [hu]))
      show countSubAux (t ++ (SEP.toList ++ joinSepL SEP.toList (t2 :: ts2)))
          MARKER.toList = (t :: t2 :: ts2).length - 1
      rw [h1, h2, h3]
      simp only [List.length_cons]
      omega

theorem swl_ws_append (pat : List Char)
    (hpat : ∀ c ∈ pat, c.isWhitespace = false) (wsl : List Char)
    (hws : ∀ c ∈ wsl, c.isWhitespace = true) :
    ∀ (a : List Char), startsWithL (a ++ wsl) pat = startsWithL a pat := by
  intro a
  induction a generalizing pat with
  | nil =>
    cases pat with
    | nil => cases wsl <;> rfl
    | cons p ps =>
      cases wsl with
      | nil => rfl
      | cons w wt =>
        have hw := hws w (by simp)
        have hp := hpat p (by simp)
        have hwp : (w == p) = false := by
          rw [beq_eq_false_iff_ne]
          intro h; rw [h, hp] at hw; cases hw
        simp [startsWithL, hwp]
  | cons x xs ih =>
    cases pat with
    | nil => rfl
    | cons p ps =>
      simp only [List.cons_append, startsWithL, List.append_eq]
      rw [ih ps (fun c hc => hpat c (List.mem_cons_of_mem _ hc))]

theorem count_ws_zero (p : Char) (ps : List Char)
    (hpat : ∀ c ∈ p :: ps, c.isWhitespace = false) (wsl : List Char)
    (hws : ∀ c ∈ wsl, c.isWhitespace = true) :
    countSubAux wsl (p :: ps) = 0 := by
  induction wsl with
  | nil => rfl
  | cons w wt ih =>
    have hw := hws w (by simp)
    have hp := hpat p (by simp)
    have hwp : (w == p) = false := by
      rw [beq_eq_false_iff_ne]
      intro h; rw [h, hp] at hw; cases hw
    have hsw : startsWithL (w :: wt) (p :: ps) = false := by
      show ((w == p) && startsWithL wt ps) = false
      rw [hwp]; rfl
    calc countSubAux (w :: wt) (p :: ps)
        = countSubAux wt (p :: ps) +
            cond (startsWithL (w :: wt) (p :: ps)) 1 0 := rfl
      _ = 0 := by rw [hsw, ih (fun c hc => hws c (List.mem_cons_of_mem _ hc))]; rfl

theorem count_ws_append (p : Char) (ps : List Char)
    (hpat : ∀ c ∈ p :: ps, c.isWhitespace = false) (wsl : List Char)
    (hws : ∀ c ∈ wsl, c.isWhitespace = true) :
    ∀ (a : List Char),
      countSubAux (a ++ wsl) (p :: ps) = countSubAux a (p :: ps) := by
  intro a
  induction a with
  | nil => exact count_ws_zero p ps hpat wsl hws
  | cons x xs ih =>
    have e1 : startsWithL ((x :: xs) ++ wsl) (p :: ps) =
        startsWithL (x :: xs) (p :: ps) :=
      swl_ws_append (p :: ps) hpat wsl hws (x :: xs)
    calc countSubAux ((x :: xs) ++ wsl) (p :: ps)
        = countSubAux (xs ++ wsl) (p :: ps) +
            cond (startsWithL ((x :: xs) ++ wsl) (p :: ps)) 1 0 := rfl
      _ = countSubAux (x :: xs) (p :: ps) := by rw [ih, e1]; rfl

theorem count_pyStrip (l : List Char) :
    countSubAux (pyStripL l) MARKER.toList = countSubAux l MARKER.toList := by
  have hpat : ∀ c ∈ ('-' :: ['-', '-', 'P', 'A', 'G', 'E', '-', '-', '-']),
      c.isWhitespace = false := by decide
  have h1 : ∀ m : List Char,
      countSubAux (m.dropWhile Char.isWhitespace) MARKER.toList =
        countSubAux m MARKER.toList := by
    intro m
    induction m with
    | nil => rfl
    | cons x xs ih =>
      by_cases hx : x.isWhitespace
      · have hxp : (x == '-') = false := by
          rw [beq_eq_false_iff_ne]
          intro h; rw [h] at hx; cases hx
        have hsw : startsWithL (x :: xs) MARKER.toList = false := by
          show ((x == '-') &&
            startsWithL xs ['-', '-', 'P', 'A', 'G', 'E', '-', '-', '-']) = false
          rw [hxp]; rfl
        have e2 : countSubAux (x :: xs) MARKER.toList =
            countSubAux xs MARKER.toList := by
          calc countSubAux (x :: xs) MARKER.toList
              = countSubAux xs MARKER.toList +
                  cond (startsWithL (x :: xs) MARKER.toList) 1 0 := rfl
            _ = countSubAux xs MARKER.toList := by rw [hsw]; rfl
        rw [List.dropWhile_cons, if_pos hx, ih, e2]
      · rw [List.dropWhile_cons, if_neg hx]
  show countSubAux
      (((l.dropWhile Char.isWhitespace).reverse.dropWhile
        Char.isWhitespace).reverse) MARKER.toList =
    countSubAux l MARKER.toList
  set l1 := l.dropWhile Char.isWhitespace with hl1
  have hsplit : l1 = (l1.reverse.dropWhile Char.isWhitespace).reverse ++
      (l1.reverse.takeWhile Char.isWhitespace).reverse := by
    conv_lhs => rw [← List.reverse_reverse l1,
      ← List.takeWhile_append_dropWhile (p := Char.isWhitespace)
        (l := l1.reverse)]
    rw [List.reverse_append]
  have hws : ∀ c ∈ (l1.reverse.takeWhile Char.isWhitespace).reverse,
      c.isWhitespace = true := by
    intro c hc
    rw [List.mem_reverse] at hc
    exact List.mem_takeWhile_imp hc
  calc countSubAux ((l1.reverse.dropWhile Char.isWhitespace).reverse)
        MARKER.toList
      = countSubAux ((l1.reverse.dropWhile Char.isWhitespace).reverse ++
          (l1.reverse.takeWhile Char.isWhitespace).reverse) MARKER.toList :=
        (count_ws_append '-' ['-', '-', 'P', 'A', 'G', 'E', '-', '-', '-']
          hpat _ hws _).symm
    _ = countSubAux l1 MARKER.toList := by rw [← hsplit]
    _ = countSubAux l MARKER.toList := h1 l

theorem hasSub_false_count_zero (p : Char) (ps : List Char) :
    ∀ (l : List Char), hasSubL l (p :: ps) = false →
      countSubAux l (p :: ps) = 0 := by
  intro l
  induction l with
  | nil => intro _; rfl
  | cons x xs ih =>
    intro h
    simp only [hasSubL, Bool.or_eq_false_iff] at h
    calc countSubAux (x :: xs) (p :: ps)
        = countSubAux xs (p :: ps) +
            cond (startsWithL (x :: xs) (p :: ps)) 1 0 := rfl
      _ = 0 := by rw [h.1, ih h.2]; rfl

theorem countOcc_joinPages (texts : List String)
    (h : ∀ t ∈ texts, strContains t MARKER = false) :
    countOccStr MARKER (joinPages texts) = texts.length - 1 := by
  show countSubAux (pyStripL (joinSepL SEP.toList (texts.map String.toList)))
      MARKER.toList = texts.length - 1
  rw [count_pyStrip,
    count_join _ (fun t ht => by
      rw [List.mem_map] at ht
      obtain ⟨s, hs, rfl⟩ := ht
      exact hasSub_false_count_zero '-'
        ['-', '-', 'P', 'A', 'G', 'E', '-', '-', '-'] s.toList (h s hs)),
    List.length_map]

def envC4x : Env :=
  { pdf2imageOk := false, pdfConvert := .error "unused",
    imageDecode := .ok (), imageOcr := .ok ("---PAGE---", none),
    hashHex := fun _ => "h" }

def reqC4x : Request :=
  { files := some { filename := some "scan.png", content := [9] } }

def resC4x : VerificationResult := mkResult "scan.png" "h" ["---PAGE---"] [] 1

/-- C4 counterexample: when the recognized text of a single page itself
contains the separator marker, `full_text` holds 1 occurrence of the
marker while `page_count - 1 = 0`, so the separator-count invariant fails
as universally stated. -/
theorem marker_in_text_miscount_c4 :
    api_verify envC4x reqC4x = .ok resC4x ∧
    resC4x.page_count = 1 ∧
    countOccStr MARKER resC4x.full_text = 1 ∧
    countOccStr MARKER resC4x.full_text ≠ resC4x.page_count - 1 := by decide

/-- C4 (amended): in every successful response `page_count` equals the
number of pages processed — unconditionally: the PDF page list's length,
or 1 for an image, the two shapes every success has; and, provided no
page's recognized text itself contains the marker `---PAGE---`,
`full_text` contains exactly `page_count - 1` occurrences of the
marker. -/
theorem page_count_separators_c4 :
    (∀ (env : Env) (f : FilePart) (pages : List PageOcr),
      isPdfUpload (effName f) f.content = true →
      env.pdf2imageOk = true →
      env.pdfConvert = .ok pages →
      ∃ r, api_verify env { files := some f } = .ok r ∧
        r.page_count = pages.length ∧
        ((∀ t ∈ pageTexts pages, strContains t MARKER = false) →
          countOccStr MARKER r.full_text = pages.length - 1)) ∧
    (∀ (env : Env) (f : FilePart) (txt : String) (conf : Option ℚ),
      isPdfUpload (effName f) f.content = false →
      env.imageDecode = .ok () →
      env.imageOcr = .ok (txt, conf) →
      ∃ r, api_verify env { files := some f } = .ok r ∧
        r.page_count = 1 ∧
        (strContains txt MARKER = false →
          countOccStr MARKER r.full_text = 0)) := by
  constructor
  · intro env f pages hpdf hlib hconv
    refine ⟨mkResult (effName f) (env.hashHex f.content) (pageTexts pages)
      (pageConfs pages) pages.length, ?_, rfl, fun hm => ?_⟩
    · simp [api_verify, hpdf, hlib, hconv]
    · show countOccStr MARKER (joinPages (pageTexts pages)) = pages.length - 1
      rw [countOcc_joinPages _ hm]
      unfold pageTexts
      rw [List.length_map]
  · intro env f txt conf himg hdec hocr
    refine ⟨mkResult (effName f) (env.hashHex f.content) [txt] conf.toList 1,
      ?_, rfl, fun hm => ?_⟩
    · simp [api_verify, himg, hdec, hocr]
    · show countOccStr MARKER (joinPages [txt]) = 0
      rw [countOcc_joinPages [txt] (fun t ht => by
        rw [List.mem_singleton] at ht
        rw [ht]; exact hm)]
      rfl

def pagesC4w : List PageOcr :=
  [.ok ("alpha", none), .error "broken page", .ok ("beta", none)]

def envC4w : Env :=
  { pdf2imageOk := true, pdfConvert := .ok pagesC4w,
    imageDecode := .ok (), imageOcr := .error "unused",
    hashHex := fun _ => "h" }

def fC4w : FilePart := { filename := some "doc.pdf", content := [] }

def envC4w2 : Env :=
  { pdf2imageOk := false, pdfConvert := .error "unused",
    imageDecode := .ok (), imageOcr := .ok ("certificate text", none),
    hashHex := fun _ => "h" }

def fC4w2 : FilePart := { filename := some "scan.png", content := [9] }

theorem page_count_separators_c4_witness :
    (∃ r, api_verify envC4w { files := some fC4w } = .ok r ∧
      r.page_count = pagesC4w.length ∧
      countOccStr MARKER r.full_text = pagesC4w.length - 1) ∧
    (∃ r, api_verify envC4w2 { files := some fC4w2 } = .ok r ∧
      r.page_count = 1 ∧ countOccStr MARKER r.full_text = 0) := by
  constructor
  · obtain ⟨r, h1, h2, h3⟩ :=
      page_count_separators_c4.1 envC4w fC4w pagesC4w (by decide) rfl rfl
    exact ⟨r, h1, h2, h3 (by decide)⟩
  · obtain ⟨r, h1, h2, h3⟩ :=
      page_count_separators_c4.2 envC4w2 fC4w2 "certificate text" none
        (by decide) rfl rfl
    exact ⟨r, h1, h2, h3 (by decide)⟩
